import Mathlib

/-!
Shallow embedding of the database-block model of this repository
(`DatabaseBlockModel` in the database-block source, the database toolbar
search handler, and the edgeless drag-handle drop callback), together with
proofs about the embedded operations.

JavaScript runtime values that flow through the cell storage are modelled by
the inductive `JsVal`. Object identity (the semantics of the strict-equality
operator on objects, which `Array.prototype.indexOf` uses) is modelled by a
numeric reference carried on tag objects: two tag objects are strictly equal
iff their references coincide. Arrays and text objects constructed by the
code are always fresh, so strict equality between them is `false`.
-/

/-- A JavaScript value as stored in a cell. `tag ref v` is a `SelectTag`
object `\x7b value: v \x7d` whose identity is `ref`; `ytext s` is a `Y.Text`
holding `s`. -/
inductive JsVal where
  | undefV : JsVal
  | null : JsVal
  | bool : Bool → JsVal
  | num : Int → JsVal
  | str : String → JsVal
  | tag : Nat → String → JsVal
  | arr : List JsVal → JsVal
  | ytext : String → JsVal

/-- JavaScript falsiness: `undefined`, `null`, `false`, `0` and the empty
string are falsy; every object (tag, array, text) is truthy. -/
def JsVal.falsy : JsVal → Bool
  | .undefV => true
  | .null => true
  | .bool b => !b
  | .num n => n == 0
  | .str s => s == ""
  | _ => false

/-- JavaScript strict equality. Primitives compare by value; tag objects by
their identity reference; arrays and text objects built by this code are
fresh, hence never strictly equal. -/
def jsEq : JsVal → JsVal → Bool
  | .undefV, .undefV => true
  | .null, .null => true
  | .bool a, .bool b => a == b
  | .num a, .num b => a == b
  | .str a, .str b => a == b
  | .tag r _, .tag q _ => r == q
  | _, _ => false

/-- Index accumulator for `jsIndexOf`. -/
def jsIndexOfAux (v : JsVal) : List JsVal → Int → Int
  | [], _ => -1
  | x :: xs, i => if jsEq x v then i else jsIndexOfAux v xs (i + 1)

/-- `Array.prototype.indexOf`: first index whose element is strictly equal
to `v`, `-1` when none is. -/
def jsIndexOf (l : List JsVal) (v : JsVal) : Int := jsIndexOfAux v l 0

/-- Element assignment `a[i] = v` at an index produced by `indexOf`: such an
index is either in range or `-1`, and assignment at `-1` creates a non-index
property, leaving the array elements unchanged. -/
def setAtFound (l : List JsVal) (i : Int) (v : JsVal) : List JsVal :=
  if i < 0 then l else l.set i.toNat v

/-- JavaScript member access `x[0]`: first element of an array (`undefined`
when empty), first character of a string, `undefined` otherwise. -/
def jsAtZero : JsVal → JsVal
  | .arr (x :: _) => x
  | .str s =>
    match s.toList with
    | [] => .undefV
    | c :: _ => .str (String.mk [c])
  | _ => .undefV

mutual
/-- JavaScript string coercion `x + ""`. -/
def jsToString : JsVal → String
  | .undefV => "undefined"
  | .null => "null"
  | .bool b => cond b "true" "false"
  | .num n => toString n
  | .str s => s
  | .tag _ _ => "[object Object]"
  | .ytext s => s
  | .arr xs => String.intercalate "," (jsJoinParts xs)

/-- `Array.prototype.join` parts: `null` and `undefined` elements become the
empty string. -/
def jsJoinParts : List JsVal → List String
  | [] => []
  | .undefV :: rest => "" :: jsJoinParts rest
  | .null :: rest => "" :: jsJoinParts rest
  | v :: rest => jsToString v :: jsJoinParts rest
end

/-- JavaScript member access `x.value`: the `value` field of a tag object,
`undefined` on every other value of this model. -/
def jsValueField : JsVal → JsVal
  | .tag _ v => .str v
  | _ => .undefV

/-- View of a value as a JavaScript array, `none` when it is not one. -/
def asArray : JsVal → Option (List JsVal)
  | .arr xs => some xs
  | _ => none

/-- A `Y.Map` with string keys, modelled as an association list with at most
one binding per key maintained by `ySet` and `yDelete`. -/
abbrev YMapL (α : Type) : Type := List (String × α)

/-- Lookup in a `Y.Map` (`map.get(k)`, `undefined` becoming `none`). -/
def yGet {α : Type} : YMapL α → String → Option α
  | [], _ => none
  | (k', v) :: rest, k => if k' = k then some v else yGet rest k

/-- Upsert in a `Y.Map` (`map.set(k, v)`): replaces the binding when the key
is present, appends it otherwise. -/
def ySet {α : Type} : YMapL α → String → α → YMapL α
  | [], k, v => [(k, v)]
  | (k', v') :: rest, k, v =>
    if k' = k then (k, v) :: rest else (k', v') :: ySet rest k v

/-- Deletion in a `Y.Map` (`map.delete(k)`). -/
def yDelete {α : Type} : YMapL α → String → YMapL α
  | [], _ => []
  | (k', v') :: rest, k =>
    if k' = k then yDelete rest k else (k', v') :: yDelete rest k

/-- A stored cell: the nested `Y.Map` written by every cell mutation holds
exactly the keys `columnId` and `value`. -/
structure YCell where
  columnId : String
  value : JsVal

/-- The block state the claims touch: `yCells` is the row-id to
(column-id to cell) mapping, `yColumns` the column-id to definition mapping.
`events` counts change-event notification cycles; it is part of the
spec-modelled store, not of the block itself. -/
structure PageState where
  yCells : YMapL (YMapL YCell)
  yColumns : YMapL JsVal
  events : Nat

/-- Modelled from the spec: `page.transact(fn)` of the shared document store
(code of this repository outside the given sources) runs `fn` atomically and
all mutations inside are one unit for change-event purposes, so one call
produces exactly one notification cycle. -/
def transactCells (f : YMapL (YMapL YCell) → YMapL (YMapL YCell))
    (s : PageState) : PageState :=
  { s with yCells := f s.yCells, events := s.events + 1 }

/-- `yCells.forEach`: the bulk operations transform every row in place. -/
def mapRows (f : YMapL YCell → YMapL YCell)
    (cells : YMapL (YMapL YCell)) : YMapL (YMapL YCell) :=
  cells.map (fun p => (p.1, f p.2))

/-- `DatabaseBlockModel.getColumn`: `yColumns.get(id) ?? null`. -/
def getColumn (s : PageState) (id : String) : Option JsVal :=
  yGet s.yColumns id

/-- `DatabaseBlockModel.getCell`: `null` when the row or the cell is absent,
otherwise the `\x7b columnId, value \x7d` read back from the stored map. -/
def getCell (s : PageState) (rowId columnId : String) : Option YCell :=
  match yGet s.yCells rowId with
  | none => none
  | some yRow =>
    match yGet yRow columnId with
    | none => none
    | some yCell => some { columnId := yCell.columnId, value := yCell.value }

/-- `DatabaseBlockModel.updateCell`: create the row container when missing,
then write a fresh cell map under the key `cell.columnId` inside one
transaction. -/
def updateCell (s : PageState) (rowId : String) (cell : YCell) : PageState :=
  transactCells (fun cells =>
    let yRow := (yGet cells rowId).getD []
    ySet cells rowId
      (ySet yRow cell.columnId
        { columnId := cell.columnId, value := cell.value })) s

/-- Row transform of `copyCellsByColumn`: a row with a cell under `fromId`
gets a fresh cell under `toId` carrying the same value; other rows are
untouched. -/
def copyRow (fromId toId : String) (yRow : YMapL YCell) : YMapL YCell :=
  match yGet yRow fromId with
  | none => yRow
  | some yCell => ySet yRow toId { columnId := toId, value := yCell.value }

/-- `DatabaseBlockModel.copyCellsByColumn`: one transaction over all rows. -/
def copyCellsByColumn (s : PageState) (fromId toId : String) : PageState :=
  transactCells (mapRows (copyRow fromId toId)) s

/-- `DatabaseBlockModel.deleteCellsByColumn`: one transaction deleting the
column key from every row. -/
def deleteCellsByColumn (s : PageState) (columnId : String) : PageState :=
  transactCells (mapRows (fun yRow => yDelete yRow columnId)) s

/-- The two target types of `convertCellsByColumn`. -/
inductive ConvertType where
  | select : ConvertType
  | richText : ConvertType
deriving DecidableEq

/-- Row transform of `convertCellsByColumn`: absent cells and falsy values
are skipped; `select` narrows the value to the one-element array holding
`value[0]`; `rich-text` re-encodes the value as a text built from its string
coercion. -/
def convertRow (columnId : String) (newType : ConvertType)
    (yRow : YMapL YCell) : YMapL YCell :=
  match yGet yRow columnId with
  | none => yRow
  | some yCell =>
    match newType with
    | .select =>
      if yCell.value.falsy then yRow
      else
        ySet yRow columnId
          { columnId := columnId, value := .arr [jsAtZero yCell.value] }
    | .richText =>
      if yCell.value.falsy then yRow
      else
        ySet yRow columnId
          { columnId := columnId, value := .ytext (jsToString yCell.value) }

/-- `DatabaseBlockModel.convertCellsByColumn`: one transaction over all
rows. -/
def convertCellsByColumn (s : PageState) (columnId : String)
    (newType : ConvertType) : PageState :=
  transactCells (mapRows (convertRow columnId newType)) s

/-- Row transform of `renameSelectedCellTag`: absent cells are skipped; the
stored value is spread into a fresh array, the position of `oldValue` is
looked up with `indexOf` (strict equality, hence object identity for tags),
and `newValue` is assigned at that position; the cell is rewritten with the
result. A row whose stored value is not an array is left unchanged here; on
such a row the source would throw a TypeError at the spread, and no claim
exercises that case. -/
def renameRow (columnId : String) (oldValue newValue : JsVal)
    (yRow : YMapL YCell) : YMapL YCell :=
  match yGet yRow columnId with
  | none => yRow
  | some yCell =>
    match asArray yCell.value with
    | none => yRow
    | some selected =>
      let index := jsIndexOf selected oldValue
      let newSelected := setAtFound selected index newValue
      ySet yRow columnId { columnId := columnId, value := .arr newSelected }

/-- `DatabaseBlockModel.renameSelectedCellTag`: one transaction over all
rows. -/
def renameSelectedCellTag (s : PageState) (columnId : String)
    (oldValue newValue : JsVal) : PageState :=
  transactCells (mapRows (renameRow columnId oldValue newValue)) s

/-- Row transform of `deleteSelectedCellTag`: absent cells are skipped; the
stored array is filtered, keeping the items whose `value` field is not
strictly equal to the `value` field of `target`; the cell is rewritten with
the result. Non-array values are handled as in `renameRow`. -/
def deleteTagRow (columnId : String) (target : JsVal)
    (yRow : YMapL YCell) : YMapL YCell :=
  match yGet yRow columnId with
  | none => yRow
  | some yCell =>
    match asArray yCell.value with
    | none => yRow
    | some selected =>
      let newSelected :=
        selected.filter (fun item =>
          !(jsEq (jsValueField item) (jsValueField target)))
      ySet yRow columnId { columnId := columnId, value := .arr newSelected }

/-- `DatabaseBlockModel.deleteSelectedCellTag`: one transaction over all
rows. -/
def deleteSelectedCellTag (s : PageState) (columnId : String)
    (target : JsVal) : PageState :=
  transactCells (mapRows (deleteTagRow columnId target)) s

/-- The search-state modes of the database toolbar. -/
inductive SearchState where
  | SearchIcon : SearchState
  | SearchInput : SearchState
  | Searching : SearchState
  | Action : SearchState
deriving DecidableEq

/-- A row block: a child block of the database block, carrying its id and
its title text (`child.text?.toString() ?? ""`). -/
structure RowBlock where
  id : String
  text : String

/-- Bool test: `need` is a prefix of `hay` as character lists. -/
def startsWithChars : List Char → List Char → Bool
  | [], _ => true
  | _ :: _, [] => false
  | c :: cs, d :: ds => c == d && startsWithChars cs ds

/-- Bool test: `need` occurs as a contiguous run inside `hay`. -/
def hasSubChars (need : List Char) : List Char → Bool
  | [] => need.isEmpty
  | d :: ds => startsWithChars need (d :: ds) || hasSubChars need ds

/-- JavaScript `String.prototype.trim`, modelled on the character list:
whitespace is dropped from both ends. -/
def trimChars (s : String) : String :=
  String.mk
    (((s.toList.dropWhile Char.isWhitespace).reverse.dropWhile
        Char.isWhitespace).reverse)

/-- Per-character lowercasing, the effect of `toLocaleLowerCase` on the
character list of a string. -/
def lowerChars (s : String) : List Char :=
  s.toList.map Char.toLower

/-- JavaScript `item.toLocaleLowerCase().includes(q.toLocaleLowerCase())`. -/
def lowerIncludes (item q : String) : Bool :=
  hasSubChars (lowerChars q) (lowerChars item)

/-- The per-column contribution to the search map: an array value becomes
the list of the `value` fields of its items, any other value the one-element
list of its string coercion (`value + ""`); `.flat()` then splices these
lists together. -/
def columnChunk (v : JsVal) : List JsVal :=
  match asArray v with
  | some items => items.map jsValueField
  | none => [.str (jsToString v)]

/-- The searchable values of one row: the row title first, then the
flattened cell values of the row, in column-map order; rows without a cell
container contribute only their title. -/
def rowSearchValues (cells : YMapL (YMapL YCell)) (child : RowBlock) :
    List JsVal :=
  .str child.text ::
    (match yGet cells child.id with
     | none => []
     | some columnMap => (columnMap.map (fun p => columnChunk p.2.value)).flatten)

/-- `DatabaseToolbar._databaseMap`: one entry per child row block (block ids
are unique, so the record keyed by id is a list here), each holding the
searchable values of that row. -/
def databaseMapOf (children : List RowBlock)
    (cells : YMapL (YMapL YCell)) : List (String × List JsVal) :=
  children.map (fun child => (child.id, rowSearchValues cells child))

/-- `findIndex` over one row with the lowercase-includes predicate; testing
stops at the first match, and reaching a non-string item throws (the source
calls `toLocaleLowerCase` on it), modelled as `Except.error`. -/
def findAnyMatch (q : String) : List JsVal → Except Unit Bool
  | [] => .ok false
  | .str s :: rest =>
    if lowerIncludes s q then .ok true else findAnyMatch q rest
  | _ :: _ => .error ()

/-- The keys of the database map whose row has some matching value, in map
order (`Object.keys(map).filter(...)`). -/
def filterMatchingRows (q : String) :
    List (String × List JsVal) → Except Unit (List String)
  | [] => .ok []
  | (rid, items) :: rest =>
    match findAnyMatch q items with
    | .error e => .error e
    | .ok m =>
      match filterMatchingRows q rest with
      | .error e => .error e
      | .ok tail => .ok (if m then rid :: tail else tail)

/-- `DatabaseToolbar._onSearch`: trims the input, sets the search state to
`Searching` and immediately back to `SearchInput` when the trimmed input is
empty (the final state value is modelled), filters the database map by the
lowercase-includes match, and passes the ids of the matching children, in
child order, to `setFilteredRowIds`. The result is the pair of the final
search state and the filtered row-id list. -/
def onSearch (children : List RowBlock) (cells : YMapL (YMapL YCell))
    (raw : String) : Except Unit (SearchState × List String) :=
  let inputValue := trimChars raw
  let finalState :=
    if inputValue = "" then SearchState.SearchInput else SearchState.Searching
  match filterMatchingRows inputValue (databaseMapOf children cells) with
  | .error e => .error e
  | .ok existingRowIds =>
    let filteredRowIds :=
      (children.filter (fun child => existingRowIds.contains child.id)).map
        (fun child => child.id)
    .ok (finalState, filteredRowIds)

/-- `DatabaseToolbar._resetSearchStatus`: clears the input, sets the
filtered row-id list to the empty list and the state to `SearchIcon`. -/
def resetSearchStatus : SearchState × List String :=
  (SearchState.SearchIcon, [])

/-- A drop point on the edgeless surface. -/
structure DragPoint where
  x : Int
  y : Int
deriving DecidableEq

/-- A bounding rectangle (`getRectByBlockElement`). -/
structure BlockRect where
  left : Int
  top : Int
  width : Int
  height : Int
deriving DecidableEq

/-- A block model, identified by its id. -/
structure BlockModel where
  id : String
deriving DecidableEq

/-- A block element of the drag session; its backing model and rectangle are
resolved through the environment functions. -/
structure BlockElem where
  id : String
deriving DecidableEq

/-- The drop-type tag of a drop gesture. -/
inductive DropType where
  | before : DropType
  | after : DropType
  | database : DropType
  | none : DropType
deriving DecidableEq

/-- The store and selection mutations the drop callback can issue, in
order. `moveBlocksInto` is `page.moveBlocks(models, model)` for a database
target; `moveBlocksBeside` is `page.moveBlocks(models, parent, model,
type === "before")`; `moveBlocksToNewFrame` lifts the models into a fresh
frame at the drop point with the given rectangle. -/
inductive StoreOp where
  | captureSync : StoreOp
  | moveBlocksInto : List BlockModel → BlockModel → StoreOp
  | moveBlocksBeside : List BlockModel → BlockModel → BlockModel → Bool →
      StoreOp
  | setSelection : String → String → DragPoint → StoreOp
  | moveBlocksToNewFrame : List BlockModel → DragPoint → BlockRect → StoreOp
deriving DecidableEq

/-- The helpers the drop callback calls, all defined elsewhere in the
repository: subtree exclusion, model resolution, the same-path test, parent
lookup, the id of the closest frame block of a block id (frame elements are
compared through these ids: two lookups yield the same element exactly when
they yield the same frame), and the bounding rectangle of an element. -/
structure DragEnv where
  excludeSubtrees : List BlockElem → List BlockElem
  getModel : BlockElem → BlockModel
  isInSamePath : BlockModel → BlockModel → Bool
  getParent : BlockModel → Option BlockModel
  closestFrameId : String → Option String
  rectOf : BlockElem → BlockRect

/-- `onDropCallback` of `createDragHandle`: the returned list is the ordered
trace of store and selection mutations of a completed run; a failed
`assertExists` throws, modelled as `Except.error` (the trace of a throwing
run is not modelled). -/
def onDropCallback (env : DragEnv) (point : DragPoint)
    (blockElements : List BlockElem) (editingState : Option BlockModel)
    (ty : DropType) : Except Unit (List StoreOp) :=
  match env.excludeSubtrees blockElements with
  | [] => .ok []
  | firstElem :: restElems =>
    let models := (firstElem :: restElems).map env.getModel
    if models.isEmpty then .ok []
    else
      let firstModel := env.getModel firstElem
      let blankOps : List StoreOp :=
        [.captureSync, .moveBlocksToNewFrame models point (env.rectOf firstElem)]
      match editingState with
      | some model =>
        if ty = DropType.none then .ok blankOps  -- fall through to the blank-area branch
        else if models.length == 1 && env.isInSamePath model firstModel then
          .ok []
        else
          match env.closestFrameId model.id with
          | none => .error ()
          | some targetFrameId =>
            match env.closestFrameId firstModel.id with
            | none => .error ()
            | some frameId =>
              match
                (if ty = DropType.database then
                  Except.ok [StoreOp.moveBlocksInto models model]
                else
                  match env.getParent model with
                  | none => Except.error ()
                  | some parent =>
                    Except.ok
                      [StoreOp.moveBlocksBeside models parent model
                        (ty == DropType.before)])
              with
              | .error e => .error e
              | .ok moveOps =>
                .ok (StoreOp.captureSync :: moveOps ++
                  (if targetFrameId = frameId then []
                   else [StoreOp.setSelection targetFrameId firstModel.id
                      point]))
      | none => .ok blankOps

/-! Lemmas about the `Y.Map` model. -/

theorem yGet_ySet_self {α : Type} (m : YMapL α) (k : String) (v : α) :
    yGet (ySet m k v) k = some v := by
  induction m with
  | nil => simp [ySet, yGet]
  | cons p rest ih =>
    obtain ⟨k', v'⟩ := p
    by_cases h : k' = k
    · simp [ySet, yGet, h]
    · simp [ySet, yGet, h, ih]

theorem yGet_ySet_ne {α : Type} (m : YMapL α) {k k' : String} (v : α)
    (h : k ≠ k') : yGet (ySet m k v) k' = yGet m k' := by
  induction m with
  | nil => simp [ySet, yGet, h]
  | cons p rest ih =>
    obtain ⟨k₀, v₀⟩ := p
    by_cases h₀ : k₀ = k
    · simp [ySet, yGet, h₀, h]
    · simp [ySet, yGet, h₀, ih]

theorem yGet_yDelete_self {α : Type} (m : YMapL α) (k : String) :
    yGet (yDelete m k) k = none := by
  induction m with
  | nil => simp [yDelete, yGet]
  | cons p rest ih =>
    obtain ⟨k₀, v₀⟩ := p
    by_cases h₀ : k₀ = k
    · simp [yDelete, h₀, ih]
    · simp [yDelete, yGet, h₀, ih]

theorem yGet_yDelete_ne {α : Type} (m : YMapL α) {k k' : String}
    (h : k ≠ k') : yGet (yDelete m k) k' = yGet m k' := by
  induction m with
  | nil => simp [yDelete]
  | cons p rest ih =>
    obtain ⟨k₀, v₀⟩ := p
    by_cases h₀ : k₀ = k
    · subst h₀
      simp [yDelete, yGet, h, ih]
    · simp [yDelete, yGet, h₀, ih]

theorem ySet_ySet_same {α : Type} (m : YMapL α) (k : String) (v w : α) :
    ySet (ySet m k v) k w = ySet m k w := by
  induction m with
  | nil => simp [ySet]
  | cons p rest ih =>
    obtain ⟨k₀, v₀⟩ := p
    by_cases h₀ : k₀ = k
    · simp [ySet, h₀]
    · simp [ySet, h₀, ih]

theorem yGet_mapRows (f : YMapL YCell → YMapL YCell)
    (cells : YMapL (YMapL YCell)) (r : String) :
    yGet (mapRows f cells) r = (yGet cells r).map f := by
  induction cells with
  | nil => simp [mapRows, yGet]
  | cons p rest ih =>
    obtain ⟨rid, row⟩ := p
    by_cases h : rid = r
    · simp [mapRows, yGet, h]
    · simp [mapRows, yGet, h] at ih ⊢
      exact ih

theorem yGet_mem {α : Type} {m : YMapL α} {k : String} {v : α}
    (h : yGet m k = some v) : (k, v) ∈ m := by
  induction m with
  | nil => simp [yGet] at h
  | cons p rest ih =>
    obtain ⟨k₀, v₀⟩ := p
    by_cases h₀ : k₀ = k
    · simp [yGet, h₀] at h
      simp [h₀, h]
    · simp [yGet, h₀] at h
      exact List.mem_cons_of_mem _ (ih h)

theorem mem_ySet {α : Type} {m : YMapL α} {k : String} {v : α}
    {p : String × α} (hp : p ∈ ySet m k v) : p ∈ m ∨ p = (k, v) := by
  induction m with
  | nil => simp [ySet] at hp; simp [hp]
  | cons q rest ih =>
    obtain ⟨k₀, v₀⟩ := q
    by_cases h₀ : k₀ = k
    · simp [ySet, h₀] at hp
      rcases hp with hp | hp
      · right; simp [hp]
      · left; exact List.mem_cons_of_mem _ hp
    · simp [ySet, h₀] at hp
      rcases hp with hp | hp
      · left; simp [hp]
      · rcases ih hp with h | h
        · left; exact List.mem_cons_of_mem _ h
        · right; exact h

theorem mem_yDelete {α : Type} {m : YMapL α} {k : String}
    {p : String × α} (hp : p ∈ yDelete m k) : p ∈ m := by
  induction m with
  | nil => simp [yDelete] at hp
  | cons q rest ih =>
    obtain ⟨k₀, v₀⟩ := q
    by_cases h₀ : k₀ = k
    · simp [yDelete, h₀] at hp
      exact List.mem_cons_of_mem _ (ih hp)
    · simp [yDelete, h₀] at hp
      rcases hp with hp | hp
      · simp [hp]
      · exact List.mem_cons_of_mem _ (ih hp)

/-! Claim theorems. -/

/-- C2: for every state, row id, column id and value, `updateCell` followed
by `getCell` at the same row and column returns exactly the written
`\x7b columnId, value \x7d` pair, whether or not the row container existed
before the call. -/
theorem updateCell_getCell_roundtrip (s : PageState)
    (rowId columnId : String) (v : JsVal) :
    getCell (updateCell s rowId ⟨columnId, v⟩) rowId columnId =
      some ⟨columnId, v⟩ := by
  simp [getCell, updateCell, transactCells, yGet_ySet_self]

/-- C9: `getColumn` returns `none` when no column definition exists under
the id, and `getCell` returns `none` when the row is absent or the row has
no cell for the column; both are total pure functions of the state (they
return only an `Option`, never modify the state, and cannot fail). -/
theorem lookup_miss_returns_none (s : PageState) :
    (∀ id, yGet s.yColumns id = none → getColumn s id = none) ∧
    (∀ rowId columnId, yGet s.yCells rowId = none →
      getCell s rowId columnId = none) ∧
    (∀ rowId columnId yRow, yGet s.yCells rowId = some yRow →
      yGet yRow columnId = none → getCell s rowId columnId = none) := by
  refine ⟨fun id h => ?_, fun rowId columnId h => ?_,
    fun rowId columnId yRow h₁ h₂ => ?_⟩
  · simpa [getColumn] using h
  · simp [getCell, h]
  · simp [getCell, h₁, h₂]

/-- C9 witness: the lookup-miss facts at a concrete state with one row that
has no cells and no columns. -/
theorem lookup_miss_returns_none_witness :
    getColumn ⟨[("r1", [])], [], 0⟩ "c1" = none ∧
    getCell ⟨[("r1", [])], [], 0⟩ "r2" "c1" = none ∧
    getCell ⟨[("r1", [])], [], 0⟩ "r1" "c1" = none :=
  ⟨(lookup_miss_returns_none ⟨[("r1", [])], [], 0⟩).1 "c1" rfl,
   (lookup_miss_returns_none ⟨[("r1", [])], [], 0⟩).2.1 "r2" "c1" rfl,
   (lookup_miss_returns_none ⟨[("r1", [])], [], 0⟩).2.2 "r1" "c1" [] rfl rfl⟩

/-- C6: every bulk column operation wraps all of its per-row writes in one
`page.transact` call, so on any state — whatever the number of rows — it
produces exactly one change-event notification cycle, never one per row;
atomicity of the transaction (subscribers never observe an intermediate
state) is the spec-modelled contract of `transact` recorded at
`transactCells`. -/
theorem bulk_ops_single_notification (s : PageState)
    (a b columnId : String) (newType : ConvertType)
    (oldValue newValue target : JsVal) :
    (copyCellsByColumn s a b).events = s.events + 1 ∧
    (deleteCellsByColumn s columnId).events = s.events + 1 ∧
    (convertCellsByColumn s columnId newType).events = s.events + 1 ∧
    (renameSelectedCellTag s columnId oldValue newValue).events =
      s.events + 1 ∧
    (deleteSelectedCellTag s columnId target).events = s.events + 1 :=
  ⟨rfl, rfl, rfl, rfl, rfl⟩

/-- A state with one row whose cell at column `col` holds the tag list
`[\x7b value: A \x7d, \x7b value: C \x7d]` (two stored objects, identities
`0` and `1`). -/
def renameBugState : PageState :=
  ⟨[("r1", [("col", ⟨"col", .arr [.tag 0 "A", .tag 1 "C"]⟩)])], [], 0⟩

/-- C1: `renameSelectedCellTag` looks the old tag up with
`Array.prototype.indexOf`, which uses strict equality — object identity —
and not value-equality. With `oldTag` a tag object whose value `A` equals
the value of the stored first tag but whose identity differs (identity `2`:
any freshly built or deserialized object), the lookup returns `-1`, the
assignment at index `-1` leaves the array elements unchanged, and the cell
is rewritten with the original list instead of the claimed
`[\x7b value: B \x7d, \x7b value: C \x7d]`. Replacement happens only when
`oldTag` is the very same object (identity `0`): the second conjunct. -/
theorem renameSelectedCellTag_identity_bug :
    getCell (renameSelectedCellTag renameBugState "col"
        (.tag 2 "A") (.tag 3 "B")) "r1" "col" =
      some ⟨"col", .arr [.tag 0 "A", .tag 1 "C"]⟩ ∧
    getCell (renameSelectedCellTag renameBugState "col"
        (.tag 0 "A") (.tag 3 "B")) "r1" "col" =
      some ⟨"col", .arr [.tag 3 "B", .tag 1 "C"]⟩ :=
  ⟨rfl, rfl⟩

/-- C3: for distinct column ids `a` and `b`, `copyCellsByColumn a b`
followed by `deleteCellsByColumn a` leaves every row that had an `a`-cell
with a `b`-cell carrying the pre-copy `a`-cell value (stored under `b`, so
its embedded column id is `b`), leaves no row with an `a`-cell, and gives
rows that lacked an `a`-cell no `b`-cell from the copy (their `b`-cell is
whatever it was before). -/
theorem copy_then_delete_column (s : PageState) (a b : String)
    (hab : a ≠ b) :
    (∀ r c, getCell s r a = some c →
      getCell (deleteCellsByColumn (copyCellsByColumn s a b) a) r b =
        some ⟨b, c.value⟩) ∧
    (∀ r, getCell (deleteCellsByColumn (copyCellsByColumn s a b) a) r a =
      none) ∧
    (∀ r, getCell s r a = none →
      getCell (deleteCellsByColumn (copyCellsByColumn s a b) a) r b =
        getCell s r b) := by
  have hcells :
      ∀ r, yGet (deleteCellsByColumn (copyCellsByColumn s a b) a).yCells r =
        (yGet s.yCells r).map (fun row => yDelete (copyRow a b row) a) := by
    intro r
    simp [deleteCellsByColumn, copyCellsByColumn, transactCells,
      yGet_mapRows, Option.map_map]
    rfl
  refine ⟨fun r c hc => ?_, fun r => ?_, fun r hn => ?_⟩
  · rcases hrow : yGet s.yCells r with _ | row
    · simp [getCell, hrow] at hc
    · rcases hcell : yGet row a with _ | yc
      · simp [getCell, hrow, hcell] at hc
      · simp [getCell, hrow, hcell] at hc
        simp [getCell, hcells r, hrow, copyRow, hcell,
          yGet_yDelete_ne _ hab, yGet_ySet_self, ← hc]
  · rcases hrow : yGet s.yCells r with _ | row
    · simp [getCell, hcells r, hrow]
    · simp [getCell, hcells r, hrow, yGet_yDelete_self]
  · rcases hrow : yGet s.yCells r with _ | row
    · simp [getCell, hcells r, hrow]
    · rcases hcell : yGet row a with _ | yc
      · simp [getCell, hcells r, hrow, copyRow, hcell,
          yGet_yDelete_ne _ hab]
      · simp [getCell, hrow, hcell] at hn

/-- A state with a row `r1` holding an `a`-cell and a row `r2` holding only
a `b`-cell. -/
def copyDeleteState : PageState :=
  ⟨[("r1", [("a", ⟨"a", .str "v"⟩)]), ("r2", [("b", ⟨"b", .str "w"⟩)])],
    [], 0⟩

/-- C3 witness: the copy-then-delete facts at `copyDeleteState`. -/
theorem copy_then_delete_column_witness :
    ("a" : String) ≠ "b" ∧
    getCell (deleteCellsByColumn (copyCellsByColumn copyDeleteState "a" "b")
        "a") "r1" "b" = some ⟨"b", .str "v"⟩ ∧
    getCell (deleteCellsByColumn (copyCellsByColumn copyDeleteState "a" "b")
        "a") "r1" "a" = none ∧
    getCell (deleteCellsByColumn (copyCellsByColumn copyDeleteState "a" "b")
        "a") "r2" "b" = getCell copyDeleteState "r2" "b" :=
  ⟨by decide,
   (copy_then_delete_column copyDeleteState "a" "b" (by decide)).1 "r1"
     ⟨"a", .str "v"⟩ rfl,
   (copy_then_delete_column copyDeleteState "a" "b" (by decide)).2.1 "r1",
   (copy_then_delete_column copyDeleteState "a" "b" (by decide)).2.2 "r2"
     rfl⟩

/-- The row transform of the select conversion is idempotent: a second pass
re-narrows the one-element array it produced to itself. -/
theorem convertRow_select_idem (col : String) (row : YMapL YCell) :
    convertRow col .select (convertRow col .select row) =
      convertRow col .select row := by
  rcases h : yGet row col with _ | yc
  · simp [convertRow, h]
  · by_cases hf : yc.value.falsy = true
    · simp [convertRow, h, hf]
    · have h1 : convertRow col .select row =
          ySet row col ⟨col, .arr [jsAtZero yc.value]⟩ := by
        simp [convertRow, h, hf]
      rw [h1]
      simp [convertRow, yGet_ySet_self, JsVal.falsy, jsAtZero,
        ySet_ySet_same]

/-- C4: `convertCellsByColumn col select` narrows every cell at `col` whose
value is a non-empty list to the one-element list holding its first element,
leaves cells with falsy values and rows without a cell at `col` untouched,
and is idempotent on the cell data: a second application changes no cell. -/
theorem convertCellsByColumn_select_spec (s : PageState) (col : String) :
    (∀ r row yc x xs, yGet s.yCells r = some row →
      yGet row col = some yc → yc.value = .arr (x :: xs) →
      getCell (convertCellsByColumn s col .select) r col =
        some ⟨col, .arr [x]⟩) ∧
    (∀ r row yc, yGet s.yCells r = some row → yGet row col = some yc →
      yc.value.falsy = true →
      getCell (convertCellsByColumn s col .select) r col =
        getCell s r col) ∧
    (∀ r, getCell s r col = none →
      getCell (convertCellsByColumn s col .select) r col = none) ∧
    (convertCellsByColumn (convertCellsByColumn s col .select) col
        .select).yCells =
      (convertCellsByColumn s col .select).yCells := by
  have hcells : ∀ r, yGet (convertCellsByColumn s col .select).yCells r =
      (yGet s.yCells r).map (convertRow col .select) := by
    intro r
    simp [convertCellsByColumn, transactCells, yGet_mapRows]
  refine ⟨fun r row yc x xs hrow hcell hv => ?_,
    fun r row yc hrow hcell hf => ?_, fun r hn => ?_, ?_⟩
  · simp [getCell, hcells r, hrow, convertRow, hcell, hv, JsVal.falsy,
      jsAtZero, yGet_ySet_self]
  · simp [getCell, hcells r, hrow, convertRow, hcell, hf]
  · rcases hrow : yGet s.yCells r with _ | row
    · simp [getCell, hcells r, hrow]
    · rcases hcell : yGet row col with _ | yc
      · simp [getCell, hcells r, hrow, convertRow, hcell]
      · simp [getCell, hrow, hcell] at hn
  · simp only [convertCellsByColumn, transactCells, mapRows, List.map_map]
    apply List.map_congr_left
    intro p _
    simp [Function.comp, convertRow_select_idem]

/-- A state with a three-tag list cell at `col` in row `r1` and a falsy
(empty-string) cell at `col` in row `r2`. -/
def convertState : PageState :=
  ⟨[("r1", [("col", ⟨"col", .arr [.str "x", .str "y", .str "z"]⟩)]),
    ("r2", [("col", ⟨"col", .str ""⟩)])], [], 0⟩

/-- C4 witness: the select-conversion facts at `convertState`. -/
theorem convertCellsByColumn_select_spec_witness :
    getCell (convertCellsByColumn convertState "col" .select) "r1" "col" =
      some ⟨"col", .arr [.str "x"]⟩ ∧
    getCell (convertCellsByColumn convertState "col" .select) "r2" "col" =
      getCell convertState "r2" "col" ∧
    getCell (convertCellsByColumn convertState "col" .select) "r3" "col" =
      none ∧
    (convertCellsByColumn (convertCellsByColumn convertState "col" .select)
        "col" .select).yCells =
      (convertCellsByColumn convertState "col" .select).yCells :=
  ⟨(convertCellsByColumn_select_spec convertState "col").1 "r1" _ _
     (.str "x") [.str "y", .str "z"] rfl rfl rfl,
   (convertCellsByColumn_select_spec convertState "col").2.1 "r2" _ _
     rfl rfl rfl,
   (convertCellsByColumn_select_spec convertState "col").2.2.1 "r3" rfl,
   (convertCellsByColumn_select_spec convertState "col").2.2.2⟩

/-- Row-level invariant: every stored cell's embedded `columnId` equals the
key it is stored under. -/
abbrev RowInv (row : YMapL YCell) : Prop :=
  ∀ q ∈ row, (q.2 : YCell).columnId = q.1

/-- State-level invariant: `RowInv` holds for the cell map of every row. -/
abbrev CellInv (s : PageState) : Prop :=
  ∀ p ∈ s.yCells, RowInv p.2

theorem rowInv_ySet {row : YMapL YCell} {k : String} {v : YCell}
    (h : RowInv row) (hv : v.columnId = k) : RowInv (ySet row k v) := by
  intro q hq
  rcases mem_ySet hq with h1 | h1
  · exact h q h1
  · rw [h1]; exact hv

theorem rowInv_yDelete {row : YMapL YCell} {k : String}
    (h : RowInv row) : RowInv (yDelete row k) :=
  fun q hq => h q (mem_yDelete hq)

theorem cellInv_bulk {f : YMapL YCell → YMapL YCell} {s : PageState}
    (h : CellInv s) (hf : ∀ row, RowInv row → RowInv (f row)) :
    CellInv (transactCells (mapRows f) s) := by
  intro p hp
  simp only [transactCells, mapRows] at hp
  rcases List.mem_map.mp hp with ⟨q, hq, rfl⟩
  exact hf q.2 (h q hq)

theorem rowInv_copyRow (a b : String) {row : YMapL YCell}
    (h : RowInv row) : RowInv (copyRow a b row) := by
  rcases hg : yGet row a with _ | yc
  · simpa [copyRow, hg] using h
  · have : copyRow a b row = ySet row b ⟨b, yc.value⟩ := by
      simp [copyRow, hg]
    rw [this]; exact rowInv_ySet h rfl

theorem rowInv_convertRow (col : String) (nt : ConvertType)
    {row : YMapL YCell} (h : RowInv row) : RowInv (convertRow col nt row) := by
  rcases hg : yGet row col with _ | yc
  · simpa [convertRow, hg] using h
  · cases nt
    · by_cases hf : yc.value.falsy = true
      · simpa [convertRow, hg, hf] using h
      · have : convertRow col .select row =
            ySet row col ⟨col, .arr [jsAtZero yc.value]⟩ := by
          simp [convertRow, hg, hf]
        rw [this]; exact rowInv_ySet h rfl
    · by_cases hf : yc.value.falsy = true
      · simpa [convertRow, hg, hf] using h
      · have : convertRow col .richText row =
            ySet row col ⟨col, .ytext (jsToString yc.value)⟩ := by
          simp [convertRow, hg, hf]
        rw [this]; exact rowInv_ySet h rfl

theorem rowInv_renameRow (col : String) (ov nv : JsVal)
    {row : YMapL YCell} (h : RowInv row) : RowInv (renameRow col ov nv row) := by
  rcases hg : yGet row col with _ | yc
  · simpa [renameRow, hg] using h
  · rcases ha : asArray yc.value with _ | sel
    · simpa [renameRow, hg, ha] using h
    · have : renameRow col ov nv row = ySet row col
          ⟨col, .arr (setAtFound sel (jsIndexOf sel ov) nv)⟩ := by
        simp [renameRow, hg, ha]
      rw [this]; exact rowInv_ySet h rfl

theorem rowInv_deleteTagRow (col : String) (target : JsVal)
    {row : YMapL YCell} (h : RowInv row) :
    RowInv (deleteTagRow col target row) := by
  rcases hg : yGet row col with _ | yc
  · simpa [deleteTagRow, hg] using h
  · rcases ha : asArray yc.value with _ | sel
    · simpa [deleteTagRow, hg, ha] using h
    · have : deleteTagRow col target row = ySet row col
          ⟨col, .arr (sel.filter (fun item =>
            !(jsEq (jsValueField item) (jsValueField target))))⟩ := by
        simp [deleteTagRow, hg, ha]
      rw [this]; exact rowInv_ySet h rfl

theorem cellInv_updateCell {s : PageState} (h : CellInv s)
    (rowId : String) (cell : YCell) : CellInv (updateCell s rowId cell) := by
  intro p hp
  simp only [updateCell, transactCells] at hp
  rcases mem_ySet hp with h1 | h1
  · exact h p h1
  · have hrow : RowInv ((yGet s.yCells rowId).getD []) := by
      rcases hg : yGet s.yCells rowId with _ | row
      · intro q hq; simp at hq
      · simpa using h (rowId, row) (yGet_mem hg)
    rw [h1]
    exact rowInv_ySet hrow rfl

/-- C5: every cell-writing operation — `updateCell`, `copyCellsByColumn`,
`convertCellsByColumn`, `renameSelectedCellTag`, `deleteSelectedCellTag` —
preserves the invariant that the embedded `columnId` field of every stored
cell equals the column key it is stored under. -/
theorem cell_columnId_invariant_preserved (s : PageState) (h : CellInv s) :
    (∀ rowId cell, CellInv (updateCell s rowId cell)) ∧
    (∀ a b, CellInv (copyCellsByColumn s a b)) ∧
    (∀ col nt, CellInv (convertCellsByColumn s col nt)) ∧
    (∀ col ov nv, CellInv (renameSelectedCellTag s col ov nv)) ∧
    (∀ col target, CellInv (deleteSelectedCellTag s col target)) :=
  ⟨fun rowId cell => cellInv_updateCell h rowId cell,
   fun a b => cellInv_bulk h (fun _ hr => rowInv_copyRow a b hr),
   fun col nt => cellInv_bulk h (fun _ hr => rowInv_convertRow col nt hr),
   fun col ov nv =>
     cellInv_bulk h (fun _ hr => rowInv_renameRow col ov nv hr),
   fun col target =>
     cellInv_bulk h (fun _ hr => rowInv_deleteTagRow col target hr)⟩

/-- C5 witness: the invariant holds at `copyDeleteState` and is kept by a
concrete instance of each of the five writing operations. -/
theorem cell_columnId_invariant_preserved_witness :
    CellInv copyDeleteState ∧
    CellInv (updateCell copyDeleteState "r3" ⟨"c", .num 7⟩) ∧
    CellInv (copyCellsByColumn copyDeleteState "a" "b") ∧
    CellInv (convertCellsByColumn copyDeleteState "a" .select) ∧
    CellInv (renameSelectedCellTag copyDeleteState "a"
      (.tag 0 "A") (.tag 1 "B")) ∧
    CellInv (deleteSelectedCellTag copyDeleteState "a" (.tag 0 "A")) :=
  ⟨by decide,
   (cell_columnId_invariant_preserved copyDeleteState (by decide)).1 "r3"
     ⟨"c", .num 7⟩,
   (cell_columnId_invariant_preserved copyDeleteState (by decide)).2.1
     "a" "b",
   (cell_columnId_invariant_preserved copyDeleteState (by decide)).2.2.1
     "a" .select,
   (cell_columnId_invariant_preserved copyDeleteState (by decide)).2.2.2.1
     "a" (.tag 0 "A") (.tag 1 "B"),
   (cell_columnId_invariant_preserved copyDeleteState (by decide)).2.2.2.2
     "a" (.tag 0 "A")⟩

theorem hasSubChars_nil (hay : List Char) : hasSubChars [] hay = true := by
  cases hay <;> simp [hasSubChars, startsWithChars]

theorem lowerIncludes_empty (s : String) : lowerIncludes s "" = true := by
  have h : lowerChars "" = [] := rfl
  simp [lowerIncludes, h, hasSubChars_nil]

theorem findAnyMatch_empty_query (t : String) (rest : List JsVal) :
    findAnyMatch "" (.str t :: rest) = .ok true := by
  simp [findAnyMatch, lowerIncludes_empty]

theorem filterMatchingRows_empty (children : List RowBlock)
    (cells : YMapL (YMapL YCell)) :
    filterMatchingRows "" (databaseMapOf children cells) =
      .ok (children.map (fun c => c.id)) := by
  induction children with
  | nil => simp [databaseMapOf, filterMatchingRows]
  | cons child rest ih =>
    simp [databaseMapOf, filterMatchingRows, rowSearchValues,
      findAnyMatch_empty_query] at ih ⊢
    simp [ih]

/-- C7 (amended): when the trimmed query is empty, `_onSearch` ends in the
expanded-idle `SearchInput` state and passes the full list of row ids to
`setFilteredRowIds` — every row matches the empty substring through its
title — so all rows are visible; it does not clear the filtered set (the
empty filtered list is only set by `_resetSearchStatus`). This holds for
every prior state, since the handler recomputes the set from scratch. -/
theorem onSearch_empty_query_amended (children : List RowBlock)
    (cells : YMapL (YMapL YCell)) (raw : String) (h : trimChars raw = "") :
    onSearch children cells raw =
      .ok (SearchState.SearchInput, children.map (fun c => c.id)) := by
  simp [onSearch, h, filterMatchingRows_empty]
  apply congrArg
  apply List.filter_eq_self.mpr
  intro c hc
  simp
  exact ⟨c, hc, rfl⟩

/-- C7 counterexample: with one row `r1` (title `t`, no cells) the empty
query makes `_onSearch` pass `[r1]` — the full row-id list — to
`setFilteredRowIds`, not the cleared (empty) set the claim states. -/
theorem onSearch_empty_query_counterexample :
    onSearch [⟨"r1", "t"⟩] [] "" =
      .ok (SearchState.SearchInput, ["r1"]) ∧
    (["r1"] : List String) ≠ [] :=
  ⟨onSearch_empty_query_amended [⟨"r1", "t"⟩] [] "" rfl, by decide⟩

/-- C7 witness: the amended statement at a concrete state, with a
whitespace-only raw input and a row that has a cell. -/
theorem onSearch_empty_query_amended_witness :
    trimChars "  " = "" ∧
    onSearch [⟨"r1", "t"⟩, ⟨"r2", "u"⟩]
        [("r1", [("c", ⟨"c", .arr [.tag 0 "A"]⟩)])] "  " =
      .ok (SearchState.SearchInput, ["r1", "r2"]) :=
  ⟨by decide,
   onSearch_empty_query_amended [⟨"r1", "t"⟩, ⟨"r2", "u"⟩]
     [("r1", [("c", ⟨"c", .arr [.tag 0 "A"]⟩)])] "  " (by decide)⟩

/-- C8: when the target exists, the drop type is not `none`, the subtree
exclusion leaves exactly one dragged element, and its model is in the same
parent/sibling path as the target model, the drop callback returns before
any mutation: no `captureSync`, no move, no selection change — the effect
trace is empty, so the document state is unchanged. -/
theorem onDropCallback_self_drop_noop (env : DragEnv) (point : DragPoint)
    (blockElements : List BlockElem) (target : BlockModel) (ty : DropType)
    (e : BlockElem)
    (hbse : env.excludeSubtrees blockElements = [e])
    (hty : ty ≠ DropType.none)
    (hsame : env.isInSamePath target (env.getModel e) = true) :
    onDropCallback env point blockElements (some target) ty = .ok [] := by
  simp [onDropCallback, hbse, hty, hsame]

/-- C10: when the target exists (`editingState` non-null) but the drop type
is `none`, the guard `editingState and type not none` fails and the callback
falls through to the blank-area branch: it records the undo checkpoint and
moves the dragged models into a newly created frame at the drop point,
sized from the bounding rectangle of the first dragged element — exactly
the trace of a drop with no target. -/
theorem onDropCallback_none_type_blank (env : DragEnv) (point : DragPoint)
    (blockElements : List BlockElem) (target : BlockModel)
    (e : BlockElem) (rest : List BlockElem)
    (hbse : env.excludeSubtrees blockElements = e :: rest) :
    onDropCallback env point blockElements (some target) DropType.none =
      .ok [.captureSync,
        .moveBlocksToNewFrame ((e :: rest).map env.getModel) point
          (env.rectOf e)] ∧
    onDropCallback env point blockElements (some target) DropType.none =
      onDropCallback env point blockElements none DropType.none := by
  constructor <;> simp [onDropCallback, hbse]

/-- A concrete drag environment: no subtree exclusion, models resolved from
element ids, every pair of blocks in the same path, no parents and no
frames resolvable, zero rectangles. -/
def dragEnvFlat : DragEnv :=
  { excludeSubtrees := fun l => l,
    getModel := fun e => ⟨e.id⟩,
    isInSamePath := fun _ _ => true,
    getParent := fun _ => none,
    closestFrameId := fun _ => none,
    rectOf := fun _ => ⟨0, 0, 0, 0⟩ }

/-- C8 witness: the self-drop no-op at a concrete single-element drag. -/
theorem onDropCallback_self_drop_noop_witness :
    dragEnvFlat.excludeSubtrees [⟨"b1"⟩] = [⟨"b1"⟩] ∧
    DropType.after ≠ DropType.none ∧
    dragEnvFlat.isInSamePath ⟨"b1"⟩ (dragEnvFlat.getModel ⟨"b1"⟩) = true ∧
    onDropCallback dragEnvFlat ⟨3, 4⟩ [⟨"b1"⟩] (some ⟨"b1"⟩)
      DropType.after = .ok [] :=
  ⟨rfl, by decide, rfl,
   onDropCallback_self_drop_noop dragEnvFlat ⟨3, 4⟩ [⟨"b1"⟩] ⟨"b1"⟩
     DropType.after ⟨"b1"⟩ rfl (by decide) rfl⟩

/-- C10 witness: the fall-through trace at a concrete two-element drag with
a target and drop type `none`. -/
theorem onDropCallback_none_type_blank_witness :
    dragEnvFlat.excludeSubtrees [⟨"b1"⟩, ⟨"b2"⟩] = ⟨"b1"⟩ :: [⟨"b2"⟩] ∧
    onDropCallback dragEnvFlat ⟨3, 4⟩ [⟨"b1"⟩, ⟨"b2"⟩] (some ⟨"t"⟩)
        DropType.none =
      .ok [.captureSync,
        .moveBlocksToNewFrame [⟨"b1"⟩, ⟨"b2"⟩] ⟨3, 4⟩ ⟨0, 0, 0, 0⟩] :=
  ⟨rfl,
   (onDropCallback_none_type_blank dragEnvFlat ⟨3, 4⟩ [⟨"b1"⟩, ⟨"b2"⟩]
     ⟨"t"⟩ ⟨"b1"⟩ [⟨"b2"⟩] rfl).1⟩
